import Mathlib

/-!
Shallow embedding of `src/main.rs` of the `nail` repository: a program that
approximates a raster image by greedily placing semi-transparent triangles.

Machine-integer conventions of the embedding:
* `u8` channel values are `Fin 256` (a `u8` can hold exactly these values);
  the `as u8` cast is `toU8` (reduction mod 256).
* `i32` / `isize` / `usize` arithmetic that cannot overflow in the program is
  modelled on `ℤ` / `ℕ`; the one place where 16-bit overflow is observable —
  the `.pow(2)` on `i16` in the scoring loop — is modelled exactly by `wrap16`.
* The floating-point `blend` of the `image` crate (`Rgba::blend`) is kept as
  an explicit function parameter `blend : Rgba → Rgba → Rgba` of every
  definition that composites pixels: no claim below depends on its numerics.
* Randomness (`Triangle::random`) is modelled by passing the drawn candidate
  triangles as explicit inputs (`cands : List Triangle`, one list per round).
-/

namespace Nail

/-- `const NUM_TRIANGLES: usize = 10;` (src/main.rs line 15). -/
def NUM_TRIANGLES : ℕ := 10

/-- `const TRANSPARENCY: u8 = 230;` (src/main.rs line 16). -/
def TRANSPARENCY : Fin 256 := 230

/-- `const N_ITERS: usize = 10_000;` (src/main.rs line 17). -/
def N_ITERS : ℕ := 10000

/-- `const DOWNSCALE: u32 = 64;` (src/main.rs line 18). -/
def DOWNSCALE : ℕ := 64

/-- `struct Point { x: i32, y: i32 }` (src/main.rs lines 24-28). -/
structure Point where
  x : ℤ
  y : ℤ
deriving DecidableEq, Repr

/-- `struct Triangle { a: Point, b: Point, c: Point }` (src/main.rs lines 30-35). -/
structure Triangle where
  a : Point
  b : Point
  c : Point
deriving DecidableEq, Repr

/-- An RGBA pixel: `type Color = [u8; 4]` and the crate type `Rgba<u8>`
(src/main.rs lines 21-22). Channel order r, g, b, a. -/
structure Rgba where
  r : Fin 256
  g : Fin 256
  b : Fin 256
  a : Fin 256
deriving DecidableEq, Repr

/-- `struct ColorTriangle { triangle: Triangle, color: Color }`
(src/main.rs lines 37-41). -/
structure ColorTriangle where
  triangle : Triangle
  color : Rgba
deriving DecidableEq, Repr

/-- The `as u8` cast: a `usize` reduced modulo 256. -/
def toU8 (n : ℕ) : Fin 256 := ⟨n % 256, Nat.mod_lt _ (by norm_num)⟩

/-- `orient2d` from `Triangle::contains` (src/main.rs lines 76-78):
`(b.x - a.x) * (c.y - a.y) - (b.y - a.y) * (c.x - a.x)`. -/
def orient2d (a b c : Point) : ℤ :=
  (b.x - a.x) * (c.y - a.y) - (b.y - a.y) * (c.x - a.x)

/-- `Triangle::contains` (src/main.rs lines 75-83): the point is accepted iff
all three edge cross products are `>= 0`. -/
def Triangle.contains (t : Triangle) (p : Point) : Bool :=
  let w0 := orient2d t.a t.b p
  let w1 := orient2d t.b t.c p
  let w2 := orient2d t.c t.a p
  decide (0 ≤ w0) && decide (0 ≤ w1) && decide (0 ≤ w2)

/-- `Triangle::bounding` (src/main.rs lines 85-97): the triangle's bounding
box clamped to the canvas `[0,w) × [0,h)`, as `(x0, y0, x1, y1)`. -/
def Triangle.bounding (t : Triangle) (w h : ℕ) : ℤ × ℤ × ℤ × ℤ :=
  let min_x := min (min t.a.x t.b.x) t.c.x
  let min_y := min (min t.a.y t.b.y) t.c.y
  let max_x := max (max (max t.a.x t.b.x) t.c.x) 0
  let max_y := max (max (max t.a.y t.b.y) t.c.y) 0
  (max min_x 0, max min_y 0, min max_x (w : ℤ), min max_y (h : ℤ))

/-- `enum Error` (src/main.rs lines 100-106); the payloads of the two
IO-related constructors are irrelevant to the engine and dropped. -/
inductive Error where
  | MissingInput
  | TriangulationFailed
  | IoError
  | ImageError
deriving DecidableEq, Repr

/-- `type Image = ImageBuffer<Rgba<u8>, Vec<u8>>` (src/main.rs line 21):
a width × height grid of pixels. `pix` is total; the partiality of
`get_pixel` (which panics out of bounds) is reasoned about separately through
the `[0,width) × [0,height)` bounds of the coordinates the code touches. -/
structure Image where
  width : ℕ
  height : ℕ
  pix : ℕ → ℕ → Rgba

/-- `get_pixel_mut` followed by a store: replace one pixel of the buffer. -/
def Image.setPix (img : Image) (x y : ℕ) (c : Rgba) : Image :=
  { img with pix := fun u v => if u = x ∧ v = y then c else img.pix u v }

/-- The integer range `lo..hi` of a Rust `for` loop, as a list. -/
def intRange (lo hi : ℤ) : List ℤ :=
  (List.range (hi - lo).toNat).map (fun n : ℕ => lo + (n : ℤ))

/-- The pixel-collection double loop of `next_triangle`
(src/main.rs lines 180-190): all `(x, y)` (cast `as u32`) of the clamped
bounding box for canvas `w × h` that pass the containment test, in loop
order (`y` outer, `x` inner). -/
def coveredPixels (t : Triangle) (w h : ℕ) : List (ℕ × ℕ) :=
  let bb := t.bounding w h
  (intRange bb.2.1 bb.2.2.2).flatMap (fun y =>
    (intRange bb.1 bb.2.2.1).filterMap (fun x =>
      if t.contains ⟨x, y⟩ then some (x.toNat, y.toNat) else none))

/-- The channel-sum accumulation of `avg_pixel` in `next_triangle`
(src/main.rs lines 184-186): sum of one channel of the target image over the
covered pixels. -/
def footprintSum (target : Image) (pixels : List (ℕ × ℕ)) (ch : Rgba → Fin 256) : ℕ :=
  (pixels.map (fun p => (ch (target.pix p.1 p.2) : ℕ))).sum

/-- Two's-complement wrap-around of an `i16` intermediate result, as produced
by release-mode Rust arithmetic. -/
def wrap16 (z : ℤ) : ℤ := (z + 2 ^ 15) % 2 ^ 16 - 2 ^ 15

/-- One channel's error term of the scoring loop (src/main.rs lines 210-212
and 220-222): `(target[i] as i16 - other[i] as i16).pow(2) as isize`. The
subtraction and the squaring are performed in `i16`, so the square wraps
around whenever the channel difference exceeds 181 in absolute value. -/
def channelErr (t p : Fin 256) : ℤ := wrap16 (wrap16 ((t : ℤ) - (p : ℤ)) ^ 2)

/-- The per-pixel error of the scoring loop: channel error terms summed over
R, G, B only (`old_error` / `new_error`, src/main.rs lines 209-223). -/
def pixErr (t p : Rgba) : ℤ := channelErr t.r p.r + channelErr t.g p.g + channelErr t.b p.b

/-- One unit of parallel work of `next_triangle` (src/main.rs lines 166-229),
for one already-drawn random triangle: collect the covered pixels of the
bounding box clamped to the *target's* dimensions; discard the candidate if
none are covered; otherwise average the target's channels over the footprint
(with the fixed `TRANSPARENCY` alpha) and score the candidate by summing
`new_error - old_error` over the footprint, where the after-pixel arises by
blending the candidate color over the current image's pixel. -/
def evalCandidate (blend : Rgba → Rgba → Rgba) (target current : Image)
    (t : Triangle) : Option (ℤ × ColorTriangle) :=
  let pixels := coveredPixels t target.width target.height
  let sumR := footprintSum target pixels Rgba.r
  let sumG := footprintSum target pixels Rgba.g
  let sumB := footprintSum target pixels Rgba.b
  if pixels.length = 0 then none
  else
    let color : Rgba :=
      ⟨toU8 (sumR / pixels.length), toU8 (sumG / pixels.length),
        toU8 (sumB / pixels.length), TRANSPARENCY⟩
    let score :=
      (pixels.map (fun p =>
        let tgt := target.pix p.1 p.2
        let before := current.pix p.1 p.2
        let after := blend before color
        pixErr tgt after - pixErr tgt before)).sum
    some (score, ⟨t, color⟩)

/-- `next_triangle` (src/main.rs lines 163-232): evaluate every drawn
candidate, drop the discarded ones, and take a minimum-score survivor
(`min_by_key` on the score). -/
def nextTriangle (blend : Rgba → Rgba → Rgba) (target current : Image)
    (cands : List Triangle) : Option ColorTriangle :=
  ((cands.filterMap (evalCandidate blend target current)).argmin Prod.fst).map Prod.snd

/-- The loop body of `rasterize_triangle` (src/main.rs lines 261-268): blend
the triangle's color over one bounding-box pixel if it passes the
containment test. -/
def rasterStep (blend : Rgba → Rgba → Rgba) (ct : ColorTriangle)
    (acc : Image) (p : ℤ × ℤ) : Image :=
  if ct.triangle.contains ⟨p.1, p.2⟩ then
    acc.setPix p.1.toNat p.2.toNat (blend (acc.pix p.1.toNat p.2.toNat) ct.color)
  else acc

/-- The pixel enumeration order of a bounding-box double loop
(`y` outer, `x` inner). -/
def rectPixels (x0 y0 x1 y1 : ℤ) : List (ℤ × ℤ) :=
  (intRange y0 y1).flatMap (fun y => (intRange x0 x1).map (fun x => (x, y)))

/-- `rasterize_triangle` (src/main.rs lines 256-269): blend the triangle over
every covered pixel of its bounding box, clamped to the *mutated image's own*
dimensions. -/
def rasterizeTriangle (blend : Rgba → Rgba → Rgba) (img : Image)
    (ct : ColorTriangle) : Image :=
  let bb := ct.triangle.bounding img.width img.height
  (rectPixels bb.1 bb.2.1 bb.2.2.1 bb.2.2.2).foldl (rasterStep blend ct) img

/-- `avg_color` (src/main.rs lines 235-247): channel-wise mean over all
pixels (alpha fixed at 255). -/
def avgColor (img : Image) : Rgba :=
  let n := img.width * img.height
  let idx := (List.range img.width).flatMap (fun x =>
    (List.range img.height).map (fun y => (x, y)))
  ⟨toU8 ((idx.map (fun p => ((img.pix p.1 p.2).r : ℕ))).sum / n),
    toU8 ((idx.map (fun p => ((img.pix p.1 p.2).g : ℕ))).sum / n),
    toU8 ((idx.map (fun p => ((img.pix p.1 p.2).b : ℕ))).sum / n),
    255⟩

/-- `fill_with` (src/main.rs lines 249-254): overwrite every pixel with one
color. -/
def fillWith (img : Image) (color : Rgba) : Image :=
  { img with pix := fun _ _ => color }

/-- `image::imageops::resize(&image, DOWNSCALE, DOWNSCALE, FilterType::Nearest)`
(src/main.rs lines 272-273): nearest-neighbour resampling; the crate's
floating-point source-index computation is modelled by exact integer scaling.
Only the produced dimensions and the fact that every output pixel is copied
from some input pixel matter to the claims below. -/
def resizeNearest (img : Image) (nw nh : ℕ) : Image :=
  ⟨nw, nh, fun x y => img.pix (x * img.width / nw) (y * img.height / nh)⟩

/-- The `downsampled` image of `triangulate` (src/main.rs lines 272-273). -/
def downsample (img : Image) : Image := resizeNearest img DOWNSCALE DOWNSCALE

/-- The working buffer of `triangulate` right before the round loop
(src/main.rs lines 275-277): a clone of the *input* image, filled with the
input's average color. Note the clone keeps the input's full resolution. -/
def initialBuffer (img : Image) : Image := fillWith img (avgColor img)

/-- `struct Svg` (src/main.rs lines 108-113). -/
structure Svg where
  background : Rgba
  triangles : List ColorTriangle
  width : ℕ
  height : ℕ
deriving Repr

/-- One scaled coordinate of `Svg::scale`: `(v as f32 * s) as i32`
(src/main.rs lines 151-157), with the `f32` arithmetic modelled exactly: the
real product `v * s = (v * s.num) / s.den` is truncated toward zero, which
for a positive denominator is `Int.tdiv`. -/
def scaleCoord (s : ℚ) (v : ℤ) : ℤ := (v * s.num).tdiv (s.den : ℤ)

/-- `Svg::scale` (src/main.rs lines 149-159): multiply every stored vertex's
x by `sx` and y by `sy`, truncating to integer; nothing else is touched. -/
def Svg.scale (svg : Svg) (sx sy : ℚ) : Svg :=
  { svg with
    triangles := svg.triangles.map (fun ct =>
      { ct with triangle :=
        ⟨⟨scaleCoord sx ct.triangle.a.x, scaleCoord sy ct.triangle.a.y⟩,
         ⟨scaleCoord sx ct.triangle.b.x, scaleCoord sy ct.triangle.b.y⟩,
         ⟨scaleCoord sx ct.triangle.c.x, scaleCoord sy ct.triangle.c.y⟩⟩ }) }

/-- One round of the loop of `triangulate` (src/main.rs lines 286-292), on
the state (working buffer, triangles committed so far): pick the next
triangle from the drawn candidates; on success rasterize it onto the buffer
and append it to the list. -/
def roundStep (blend : Rgba → Rgba → Rgba) (target : Image)
    (cands : List Triangle) (st : Image × List ColorTriangle) :
    Option (Image × List ColorTriangle) :=
  match nextTriangle blend target st.1 cands with
  | none => none
  | some ct => some (rasterizeTriangle blend st.1 ct, st.2 ++ [ct])

/-- The round loop of `triangulate`: run `fuel` rounds starting at round
index `i`, drawing round `j`'s candidates from `stream j`; the first failed
round aborts the whole run (the `?` operator on `next_triangle`). -/
def runRounds (blend : Rgba → Rgba → Rgba) (target : Image)
    (stream : ℕ → List Triangle) :
    ℕ → ℕ → Image × List ColorTriangle → Option (Image × List ColorTriangle)
  | _, 0, st => some st
  | i, fuel + 1, st => (roundStep blend target (stream i) st).bind
      (runRounds blend target stream (i + 1) fuel)

/-- `triangulate` (src/main.rs lines 234-299): build the 64×64 nearest
neighbour proxy and the average-color-filled clone of the input, run
`NUM_TRIANGLES` rounds — each round calling `next_triangle` with the proxy as
`target_image` and the working buffer as `current_image` — and finally scale
the collected triangles by `(w / DOWNSCALE, h / DOWNSCALE)`. -/
def triangulate (blend : Rgba → Rgba → Rgba) (img : Image)
    (stream : ℕ → List Triangle) : Except Error Svg :=
  let target := downsample img
  let buffer := initialBuffer img
  let background := avgColor img
  match runRounds blend target stream 0 NUM_TRIANGLES (buffer, []) with
  | none => .error .TriangulationFailed
  | some st =>
      let svg : Svg := ⟨background, st.2, img.width, img.height⟩
      .ok (svg.scale (mkRat (img.width : ℤ) DOWNSCALE)
                     (mkRat (img.height : ℤ) DOWNSCALE))

/-- Membership of a point in the closed geometric triangle (vertices, edges
and interior): the point is a convex combination, with rational coefficients,
of the three vertices. -/
def InsideClosed (t : Triangle) (p : Point) : Prop :=
  ∃ u v w : ℚ, 0 ≤ u ∧ 0 ≤ v ∧ 0 ≤ w ∧ u + v + w = 1 ∧
    (p.x : ℚ) = u * t.a.x + v * t.b.x + w * t.c.x ∧
    (p.y : ℚ) = u * t.a.y + v * t.b.y + w * t.c.y

/-- Membership of a point in the strict geometric interior of a triangle:
a convex combination with all three coefficients positive. -/
def InsideOpen (t : Triangle) (p : Point) : Prop :=
  ∃ u v w : ℚ, 0 < u ∧ 0 < v ∧ 0 < w ∧ u + v + w = 1 ∧
    (p.x : ℚ) = u * t.a.x + v * t.b.x + w * t.c.x ∧
    (p.y : ℚ) = u * t.a.y + v * t.b.y + w * t.c.y

/-- Modelled from the spec (section 4.3): the true squared per-channel error of
one pixel, summed over the R, G, B channels with A excluded, computed in
unbounded integers. The code's `pixErr` is supposed to refine this. -/
def specPixErr (t p : Rgba) : ℤ :=
  ((t.r : ℤ) - (p.r : ℤ)) ^ 2 + ((t.g : ℤ) - (p.g : ℤ)) ^ 2 +
    ((t.b : ℤ) - (p.b : ℤ)) ^ 2

/-! ## Helper lemmas about the embedded operations -/

theorem mem_intRange {lo hi z : ℤ} : z ∈ intRange lo hi ↔ lo ≤ z ∧ z < hi := by
  simp only [intRange, List.mem_map, List.mem_range]
  constructor
  · rintro ⟨i, hi2, rfl⟩
    omega
  · intro hz
    exact ⟨(z - lo).toNat, by omega, by omega⟩

theorem bounding_spec (t : Triangle) (w h : ℕ) :
    0 ≤ (t.bounding w h).1 ∧ 0 ≤ (t.bounding w h).2.1 ∧
      (t.bounding w h).2.2.1 ≤ (w : ℤ) ∧ (t.bounding w h).2.2.2 ≤ (h : ℤ) :=
  ⟨le_max_right _ _, le_max_right _ _, min_le_right _ _, min_le_right _ _⟩

theorem mem_coveredPixels {t : Triangle} {w h : ℕ} {q : ℕ × ℕ} :
    q ∈ coveredPixels t w h ↔
      ∃ x y : ℤ, (t.bounding w h).1 ≤ x ∧ x < (t.bounding w h).2.2.1 ∧
        (t.bounding w h).2.1 ≤ y ∧ y < (t.bounding w h).2.2.2 ∧
        t.contains ⟨x, y⟩ = true ∧ q = (x.toNat, y.toNat) := by
  simp only [coveredPixels, List.mem_flatMap, List.mem_filterMap, mem_intRange]
  constructor
  · rintro ⟨y, ⟨hy1, hy2⟩, x, ⟨hx1, hx2⟩, hq⟩
    by_cases hc : t.contains ⟨x, y⟩ = true
    · rw [if_pos hc] at hq
      exact ⟨x, y, hx1, hx2, hy1, hy2, hc, (Option.some.inj hq).symm⟩
    · rw [if_neg hc] at hq
      cases hq
  · rintro ⟨x, y, hx1, hx2, hy1, hy2, hc, rfl⟩
    exact ⟨y, ⟨hy1, hy2⟩, x, ⟨hx1, hx2⟩, by rw [if_pos hc]⟩

theorem coveredPixels_inRange {t : Triangle} {w h : ℕ} {q : ℕ × ℕ}
    (hq : q ∈ coveredPixels t w h) : q.1 < w ∧ q.2 < h := by
  rw [mem_coveredPixels] at hq
  obtain ⟨x, y, hx1, hx2, hy1, hy2, _, rfl⟩ := hq
  have hb := bounding_spec t w h
  constructor <;> simp only <;> omega

theorem coveredPixels_eq_nil_of_degenerate {t : Triangle} {w h : ℕ}
    (hdeg : (t.bounding w h).2.2.1 ≤ (t.bounding w h).1 ∨
      (t.bounding w h).2.2.2 ≤ (t.bounding w h).2.1) :
    coveredPixels t w h = [] := by
  rw [List.eq_nil_iff_forall_not_mem]
  intro q hq
  rw [mem_coveredPixels] at hq
  obtain ⟨x, y, hx1, hx2, hy1, hy2, _, _⟩ := hq
  omega

theorem evalCandidate_eq_none_iff {blend : Rgba → Rgba → Rgba}
    {target current : Image} {t : Triangle} :
    evalCandidate blend target current t = none ↔
      coveredPixels t target.width target.height = [] := by
  unfold evalCandidate
  by_cases hlen : (coveredPixels t target.width target.height).length = 0
  · simp only [hlen, if_pos]
    simpa using List.length_eq_zero.mp hlen
  · simp only [hlen, if_neg, if_false]
    constructor
    · intro hcontra
      cases hcontra
    · intro hnil
      exact absurd (by rw [hnil]; rfl) hlen

theorem nextTriangle_eq_none_iff {blend : Rgba → Rgba → Rgba}
    {target current : Image} {cands : List Triangle} :
    nextTriangle blend target current cands = none ↔
      ∀ t ∈ cands, coveredPixels t target.width target.height = [] := by
  unfold nextTriangle
  rw [Option.map_eq_none', List.argmin_eq_none, List.filterMap_eq_nil_iff]
  constructor
  · intro hall t ht
    exact evalCandidate_eq_none_iff.mp (hall t ht)
  · intro hall t ht
    exact evalCandidate_eq_none_iff.mpr (hall t ht)

theorem nextTriangle_is_min {blend : Rgba → Rgba → Rgba}
    {target current : Image} {cands : List Triangle} {ct : ColorTriangle}
    (h : nextTriangle blend target current cands = some ct) :
    ∃ s : ℤ, (s, ct) ∈ cands.filterMap (evalCandidate blend target current) ∧
      ∀ q ∈ cands.filterMap (evalCandidate blend target current), s ≤ q.1 := by
  unfold nextTriangle at h
  rw [Option.map_eq_some'] at h
  obtain ⟨p, hp, rfl⟩ := h
  have hp2 : p ∈ (cands.filterMap (evalCandidate blend target current)).argmin Prod.fst := hp
  refine ⟨p.1, ?_, ?_⟩
  · have := List.argmin_mem hp2
    simpa using this
  · intro q hq
    exact List.le_of_mem_argmin hq hp2

theorem roundStep_eq_none_iff {blend : Rgba → Rgba → Rgba} {target : Image}
    {cands : List Triangle} {st : Image × List ColorTriangle} :
    roundStep blend target cands st = none ↔
      ∀ t ∈ cands, coveredPixels t target.width target.height = [] := by
  rw [← @nextTriangle_eq_none_iff blend target st.1 cands]
  unfold roundStep
  cases hnt : nextTriangle blend target st.1 cands <;> simp [hnt]

theorem roundStep_eq_some_iff {blend : Rgba → Rgba → Rgba} {target : Image}
    {cands : List Triangle} {st st' : Image × List ColorTriangle} :
    roundStep blend target cands st = some st' ↔
      ∃ ct, nextTriangle blend target st.1 cands = some ct ∧
        st' = (rasterizeTriangle blend st.1 ct, st.2 ++ [ct]) := by
  unfold roundStep
  cases hnt : nextTriangle blend target st.1 cands with
  | none => simp
  | some ct => simp [eq_comm]

theorem runRounds_eq_none_iff {blend : Rgba → Rgba → Rgba} {target : Image}
    {stream : ℕ → List Triangle} (fuel : ℕ) :
    ∀ (i : ℕ) (st : Image × List ColorTriangle),
      runRounds blend target stream i fuel st = none ↔
        ∃ j, i ≤ j ∧ j < i + fuel ∧
          ∀ t ∈ stream j, coveredPixels t target.width target.height = [] := by
  induction fuel with
  | zero =>
      intro i st
      simp only [runRounds]
      constructor
      · intro hcontra
        cases hcontra
      · rintro ⟨j, h1, h2, _⟩
        omega
  | succ fuel ih =>
      intro i st
      simp only [runRounds]
      cases hrs : roundStep blend target (stream i) st with
      | none =>
          simp only [Option.none_bind]
          constructor
          · intro _
            exact ⟨i, le_refl i, by omega, roundStep_eq_none_iff.mp hrs⟩
          · intro _
            trivial
      | some st' =>
          simp only [Option.some_bind]
          rw [ih (i + 1) st']
          constructor
          · rintro ⟨j, h1, h2, h3⟩
            exact ⟨j, by omega, by omega, h3⟩
          · rintro ⟨j, h1, h2, h3⟩
            rcases eq_or_lt_of_le h1 with rfl | hlt
            · rw [roundStep_eq_none_iff.mpr h3] at hrs
              cases hrs
            · exact ⟨j, by omega, by omega, h3⟩

theorem runRounds_length {blend : Rgba → Rgba → Rgba} {target : Image}
    {stream : ℕ → List Triangle} (fuel : ℕ) :
    ∀ (i : ℕ) (st st' : Image × List ColorTriangle),
      runRounds blend target stream i fuel st = some st' →
        st'.2.length = st.2.length + fuel := by
  induction fuel with
  | zero =>
      intro i st st' hrun
      cases hrun
      rfl
  | succ fuel ih =>
      intro i st st' hrun
      simp only [runRounds] at hrun
      cases hrs : roundStep blend target (stream i) st with
      | none => rw [hrs] at hrun; cases hrun
      | some st1 =>
          rw [hrs, Option.some_bind] at hrun
          obtain ⟨ct, -, hst1⟩ := roundStep_eq_some_iff.mp hrs
          have := ih (i + 1) st1 st' hrun
          rw [hst1] at this
          simp only [List.length_append, List.length_cons, List.length_nil] at this
          omega

/-! Frame and dimension lemmas for the rasterizer. -/

theorem rasterStep_width (blend : Rgba → Rgba → Rgba) (ct : ColorTriangle)
    (acc : Image) (p : ℤ × ℤ) : (rasterStep blend ct acc p).width = acc.width := by
  unfold rasterStep Image.setPix
  split <;> rfl

theorem rasterStep_height (blend : Rgba → Rgba → Rgba) (ct : ColorTriangle)
    (acc : Image) (p : ℤ × ℤ) : (rasterStep blend ct acc p).height = acc.height := by
  unfold rasterStep Image.setPix
  split <;> rfl

theorem foldl_rasterStep_width (blend : Rgba → Rgba → Rgba) (ct : ColorTriangle) :
    ∀ (l : List (ℤ × ℤ)) (acc : Image),
      (l.foldl (rasterStep blend ct) acc).width = acc.width := by
  intro l
  induction l with
  | nil => intro acc; rfl
  | cons p tl ih =>
      intro acc
      rw [List.foldl_cons, ih, rasterStep_width]

theorem foldl_rasterStep_height (blend : Rgba → Rgba → Rgba) (ct : ColorTriangle) :
    ∀ (l : List (ℤ × ℤ)) (acc : Image),
      (l.foldl (rasterStep blend ct) acc).height = acc.height := by
  intro l
  induction l with
  | nil => intro acc; rfl
  | cons p tl ih =>
      intro acc
      rw [List.foldl_cons, ih, rasterStep_height]

theorem rasterizeTriangle_width (blend : Rgba → Rgba → Rgba) (img : Image)
    (ct : ColorTriangle) : (rasterizeTriangle blend img ct).width = img.width :=
  foldl_rasterStep_width blend ct _ img

theorem rasterizeTriangle_height (blend : Rgba → Rgba → Rgba) (img : Image)
    (ct : ColorTriangle) : (rasterizeTriangle blend img ct).height = img.height :=
  foldl_rasterStep_height blend ct _ img

theorem rasterStep_pix_of_ne {blend : Rgba → Rgba → Rgba} {ct : ColorTriangle}
    {acc : Image} {p : ℤ × ℤ} {x y : ℕ}
    (h : ¬(p.1.toNat = x ∧ p.2.toNat = y ∧ ct.triangle.contains ⟨p.1, p.2⟩ = true)) :
    (rasterStep blend ct acc p).pix x y = acc.pix x y := by
  unfold rasterStep Image.setPix
  by_cases hc : ct.triangle.contains ⟨p.1, p.2⟩ = true
  · rw [if_pos hc]
    simp only []
    rw [if_neg]
    tauto
  · rw [if_neg hc]

theorem foldl_rasterStep_pix {blend : Rgba → Rgba → Rgba} {ct : ColorTriangle}
    {x y : ℕ} :
    ∀ (l : List (ℤ × ℤ)) (acc : Image),
      (∀ p ∈ l, ¬(p.1.toNat = x ∧ p.2.toNat = y ∧
        ct.triangle.contains ⟨p.1, p.2⟩ = true)) →
      (l.foldl (rasterStep blend ct) acc).pix x y = acc.pix x y := by
  intro l
  induction l with
  | nil => intro acc _; rfl
  | cons p tl ih =>
      intro acc hall
      rw [List.foldl_cons, ih _ (fun q hq => hall q (List.mem_cons_of_mem p hq)),
        rasterStep_pix_of_ne (hall p (List.mem_cons_self p tl))]

theorem mem_rectPixels {x0 y0 x1 y1 : ℤ} {p : ℤ × ℤ} :
    p ∈ rectPixels x0 y0 x1 y1 ↔ x0 ≤ p.1 ∧ p.1 < x1 ∧ y0 ≤ p.2 ∧ p.2 < y1 := by
  simp only [rectPixels, List.mem_flatMap, List.mem_map, mem_intRange]
  constructor
  · rintro ⟨y, ⟨hy1, hy2⟩, x, ⟨hx1, hx2⟩, rfl⟩
    exact ⟨hx1, hx2, hy1, hy2⟩
  · rintro ⟨hx1, hx2, hy1, hy2⟩
    exact ⟨p.2, ⟨hy1, hy2⟩, p.1, ⟨hx1, hx2⟩, rfl⟩

/-! Barycentric-coordinate lemmas for the containment test (claim C4). -/

theorem orient2d_sum (t : Triangle) (p : Point) :
    orient2d t.a t.b p + orient2d t.b t.c p + orient2d t.c t.a p =
      orient2d t.a t.b t.c := by
  unfold orient2d
  ring

theorem orient2d_bary_x (t : Triangle) (p : Point) :
    orient2d t.b t.c p * t.a.x + orient2d t.c t.a p * t.b.x +
      orient2d t.a t.b p * t.c.x = orient2d t.a t.b t.c * p.x := by
  unfold orient2d
  ring

theorem orient2d_bary_y (t : Triangle) (p : Point) :
    orient2d t.b t.c p * t.a.y + orient2d t.c t.a p * t.b.y +
      orient2d t.a t.b p * t.c.y = orient2d t.a t.b t.c * p.y := by
  unfold orient2d
  ring

theorem orient_ab_of_bary (t : Triangle) (p : Point) (u v w : ℚ)
    (hsum : u + v + w = 1)
    (hx : (p.x : ℚ) = u * t.a.x + v * t.b.x + w * t.c.x)
    (hy : (p.y : ℚ) = u * t.a.y + v * t.b.y + w * t.c.y) :
    (orient2d t.a t.b p : ℚ) = w * (orient2d t.a t.b t.c : ℚ) := by
  have hu : u = 1 - v - w := by linarith
  subst hu
  unfold orient2d
  push_cast
  linear_combination ((t.b.x : ℚ) - (t.a.x : ℚ)) * hy - ((t.b.y : ℚ) - (t.a.y : ℚ)) * hx

theorem orient_bc_of_bary (t : Triangle) (p : Point) (u v w : ℚ)
    (hsum : u + v + w = 1)
    (hx : (p.x : ℚ) = u * t.a.x + v * t.b.x + w * t.c.x)
    (hy : (p.y : ℚ) = u * t.a.y + v * t.b.y + w * t.c.y) :
    (orient2d t.b t.c p : ℚ) = u * (orient2d t.a t.b t.c : ℚ) := by
  have hu : u = 1 - v - w := by linarith
  subst hu
  unfold orient2d
  push_cast
  linear_combination ((t.c.x : ℚ) - (t.b.x : ℚ)) * hy - ((t.c.y : ℚ) - (t.b.y : ℚ)) * hx

theorem orient_ca_of_bary (t : Triangle) (p : Point) (u v w : ℚ)
    (hsum : u + v + w = 1)
    (hx : (p.x : ℚ) = u * t.a.x + v * t.b.x + w * t.c.x)
    (hy : (p.y : ℚ) = u * t.a.y + v * t.b.y + w * t.c.y) :
    (orient2d t.c t.a p : ℚ) = v * (orient2d t.a t.b t.c : ℚ) := by
  have hu : u = 1 - v - w := by linarith
  subst hu
  unfold orient2d
  push_cast
  linear_combination ((t.a.x : ℚ) - (t.c.x : ℚ)) * hy - ((t.a.y : ℚ) - (t.c.y : ℚ)) * hx

theorem contains_iff_nonneg {t : Triangle} {p : Point} :
    t.contains p = true ↔
      0 ≤ orient2d t.a t.b p ∧ 0 ≤ orient2d t.b t.c p ∧ 0 ≤ orient2d t.c t.a p := by
  unfold Triangle.contains
  simp [Bool.and_eq_true, decide_eq_true_eq, and_assoc]

theorem contains_of_insideClosed {t : Triangle} {p : Point}
    (hD : 0 < orient2d t.a t.b t.c) (h : InsideClosed t p) :
    t.contains p = true := by
  obtain ⟨u, v, w, hu, hv, hw, hsum, hx, hy⟩ := h
  have hDq : (0 : ℚ) ≤ (orient2d t.a t.b t.c : ℚ) := by exact_mod_cast hD.le
  rw [contains_iff_nonneg]
  refine ⟨?_, ?_, ?_⟩
  · have : (0 : ℚ) ≤ (orient2d t.a t.b p : ℚ) := by
      rw [orient_ab_of_bary t p u v w hsum hx hy]
      exact mul_nonneg hw hDq
    exact_mod_cast this
  · have : (0 : ℚ) ≤ (orient2d t.b t.c p : ℚ) := by
      rw [orient_bc_of_bary t p u v w hsum hx hy]
      exact mul_nonneg hu hDq
    exact_mod_cast this
  · have : (0 : ℚ) ≤ (orient2d t.c t.a p : ℚ) := by
      rw [orient_ca_of_bary t p u v w hsum hx hy]
      exact mul_nonneg hv hDq
    exact_mod_cast this

theorem insideClosed_of_contains {t : Triangle} {p : Point}
    (hD : 0 < orient2d t.a t.b t.c) (h : t.contains p = true) :
    InsideClosed t p := by
  rw [contains_iff_nonneg] at h
  obtain ⟨h0, h1, h2⟩ := h
  have hDq : (0 : ℚ) < (orient2d t.a t.b t.c : ℚ) := by exact_mod_cast hD
  have hD0 : (orient2d t.a t.b t.c : ℚ) ≠ 0 := ne_of_gt hDq
  refine ⟨(orient2d t.b t.c p : ℚ) / (orient2d t.a t.b t.c : ℚ),
    (orient2d t.c t.a p : ℚ) / (orient2d t.a t.b t.c : ℚ),
    (orient2d t.a t.b p : ℚ) / (orient2d t.a t.b t.c : ℚ), ?_, ?_, ?_, ?_, ?_, ?_⟩
  · exact div_nonneg (by exact_mod_cast h1) hDq.le
  · exact div_nonneg (by exact_mod_cast h2) hDq.le
  · exact div_nonneg (by exact_mod_cast h0) hDq.le
  · have hs : (orient2d t.b t.c p : ℚ) + (orient2d t.c t.a p : ℚ) +
        (orient2d t.a t.b p : ℚ) = (orient2d t.a t.b t.c : ℚ) := by
      have := orient2d_sum t p
      push_cast [← this]
      ring
    field_simp
    linear_combination hs
  · have hbx : (orient2d t.b t.c p : ℚ) * t.a.x + (orient2d t.c t.a p : ℚ) * t.b.x +
        (orient2d t.a t.b p : ℚ) * t.c.x = (orient2d t.a t.b t.c : ℚ) * p.x := by
      exact_mod_cast orient2d_bary_x t p
    field_simp
    linear_combination -hbx
  · have hby : (orient2d t.b t.c p : ℚ) * t.a.y + (orient2d t.c t.a p : ℚ) * t.b.y +
        (orient2d t.a t.b p : ℚ) * t.c.y = (orient2d t.a t.b t.c : ℚ) * p.y := by
      exact_mod_cast orient2d_bary_y t p
    field_simp
    linear_combination -hby

/-! ## Claim theorems -/

/-- C1: the claim fails on the code. In `triangulate`, the image passed as
`target_image` to `next_triangle` is always the 64×64 downscaled proxy,
while the image passed as `current_image` starts as the average-color-filled
clone of the *full-resolution* input and keeps its dimensions across rounds
(rasterization preserves them); hence for any input whose dimensions differ
from 64×64 — e.g. a 128×128 input — the two images of the scoring comparison
have different dimensions, 64 vs 128. -/
theorem C1_dimension_mismatch :
    (∀ img : Image, (downsample img).width = DOWNSCALE ∧
      (downsample img).height = DOWNSCALE) ∧
    (∀ img : Image, (initialBuffer img).width = img.width ∧
      (initialBuffer img).height = img.height) ∧
    (∀ (blend : Rgba → Rgba → Rgba) (img : Image) (ct : ColorTriangle),
      (rasterizeTriangle blend img ct).width = img.width ∧
      (rasterizeTriangle blend img ct).height = img.height) ∧
    (downsample ⟨128, 128, fun _ _ => ⟨255, 255, 255, 255⟩⟩).width ≠
      (initialBuffer ⟨128, 128, fun _ _ => ⟨255, 255, 255, 255⟩⟩).width := by
  refine ⟨fun img => ⟨rfl, rfl⟩, fun img => ⟨rfl, rfl⟩,
    fun blend img ct =>
      ⟨rasterizeTriangle_width blend img ct, rasterizeTriangle_height blend img ct⟩, ?_⟩
  decide

/-- C2: the claim fails on the code. The per-channel squared error of the
scoring loop is computed with `.pow(2)` on `i16`, which overflows whenever
the channel difference exceeds 181; at a footprint pixel whose target
channels are 0 while the working canvas holds 239 (reachable: a mostly-white
image with black detail averages to 239), each channel term wraps from the
true 57121 to -8415, so the emitted delta is not the squared-error delta of
the claim (in a debug build the same expression panics on overflow). -/
theorem C2_score_overflow :
    pixErr ⟨0, 0, 0, 255⟩ ⟨239, 239, 239, 255⟩ = -25245 ∧
    specPixErr ⟨0, 0, 0, 255⟩ ⟨239, 239, 239, 255⟩ = 171363 ∧
    pixErr ⟨0, 0, 0, 255⟩ ⟨239, 239, 239, 255⟩ ≠
      specPixErr ⟨0, 0, 0, 255⟩ ⟨239, 239, 239, 255⟩ := by
  refine ⟨by decide, by decide, by decide⟩

/-- C3: the claim fails on the code. Candidate evaluation enumerates the
footprint from the bounding box clamped to the *target's* (the 64×64 proxy's)
dimensions, but then reads `current_image` — the full-resolution working
buffer — at those same coordinates; for a 32×32 input the buffer is 32×32
while the candidate triangle (40,40),(42,40),(40,42) covers pixel (40,40) of
the proxy, so the scoring loop's `current_image.get_pixel(40, 40)` receives a
coordinate outside the canvas actually being accessed. -/
theorem C3_out_of_range_read :
    (40, 40) ∈ coveredPixels ⟨⟨40, 40⟩, ⟨42, 40⟩, ⟨40, 42⟩⟩
        (downsample ⟨32, 32, fun _ _ => ⟨255, 255, 255, 255⟩⟩).width
        (downsample ⟨32, 32, fun _ _ => ⟨255, 255, 255, 255⟩⟩).height ∧
    ¬ (40 < (initialBuffer ⟨32, 32, fun _ _ => ⟨255, 255, 255, 255⟩⟩).width ∧
       40 < (initialBuffer ⟨32, 32, fun _ _ => ⟨255, 255, 255, 255⟩⟩).height) := by
  exact ⟨by decide, by decide⟩

/-- C4 counterexample: the claim quantifies over *every* triangle, but the
all-nonnegative orientation rule only accepts the inside of triangles with
counterclockwise winding: the clockwise triangle (0,0),(0,10),(10,0) strictly
contains the point (1,1) geometrically, yet `contains` returns `false`. -/
theorem C4_cw_counterexample :
    InsideOpen ⟨⟨0, 0⟩, ⟨0, 10⟩, ⟨10, 0⟩⟩ ⟨1, 1⟩ ∧
      Triangle.contains ⟨⟨0, 0⟩, ⟨0, 10⟩, ⟨10, 0⟩⟩ ⟨1, 1⟩ = false := by
  constructor
  · refine ⟨4/5, 1/10, 1/10, by norm_num, by norm_num, by norm_num, by norm_num, ?_, ?_⟩
    · push_cast
      norm_num
    · push_cast
      norm_num
  · decide

/-- C4 (amended): for every triangle with *positive orientation*
(`orient2d a b c > 0`, the consistent counterclockwise winding assumed by the
code), `contains` returns `true` for every point strictly inside the
geometric interior, `false` for every point strictly outside the closed
triangle, and `true` exactly on the closed triangle, so boundary points are
included per the inclusive ≥ 0 rule. -/
theorem C4_contains_characterization (t : Triangle) (p : Point)
    (hD : 0 < orient2d t.a t.b t.c) :
    (InsideOpen t p → t.contains p = true) ∧
    (¬ InsideClosed t p → t.contains p = false) ∧
    (t.contains p = true ↔ InsideClosed t p) := by
  have hmp : t.contains p = true → InsideClosed t p := insideClosed_of_contains hD
  have hmpr : InsideClosed t p → t.contains p = true := contains_of_insideClosed hD
  refine ⟨?_, ?_, hmp, hmpr⟩
  · rintro ⟨u, v, w, hu, hv, hw, hsum, hx, hy⟩
    exact hmpr ⟨u, v, w, hu.le, hv.le, hw.le, hsum, hx, hy⟩
  · intro hout
    cases hc : t.contains p with
    | false => rfl
    | true => exact absurd (hmp hc) hout

/-- C4 witness: the spec's concrete examples, derived from the
characterization at the counterclockwise triangle (0,0),(10,0),(0,10):
(1,1) is strictly inside and accepted, (-1,-1) is outside the closed
triangle and rejected, (5,5) lies on the hypotenuse and is included. -/
theorem C4_contains_characterization_witness :
    Triangle.contains ⟨⟨0, 0⟩, ⟨10, 0⟩, ⟨0, 10⟩⟩ ⟨1, 1⟩ = true ∧
    Triangle.contains ⟨⟨0, 0⟩, ⟨10, 0⟩, ⟨0, 10⟩⟩ ⟨-1, -1⟩ = false ∧
    Triangle.contains ⟨⟨0, 0⟩, ⟨10, 0⟩, ⟨0, 10⟩⟩ ⟨5, 5⟩ = true := by
  refine ⟨?_, ?_, ?_⟩
  · refine (C4_contains_characterization ⟨⟨0, 0⟩, ⟨10, 0⟩, ⟨0, 10⟩⟩ ⟨1, 1⟩ (by decide)).1
      ⟨4/5, 1/10, 1/10, by norm_num, by norm_num, by norm_num, by norm_num, ?_, ?_⟩
    · push_cast
      norm_num
    · push_cast
      norm_num
  · refine (C4_contains_characterization ⟨⟨0, 0⟩, ⟨10, 0⟩, ⟨0, 10⟩⟩ ⟨-1, -1⟩ (by decide)).2.1 ?_
    rintro ⟨u, v, w, hu, hv, hw, hsum, hx, hy⟩
    push_cast at hx
    norm_num at hx
    nlinarith
  · refine ((C4_contains_characterization ⟨⟨0, 0⟩, ⟨10, 0⟩, ⟨0, 10⟩⟩ ⟨5, 5⟩ (by decide)).2.2).mpr
      ⟨0, 1/2, 1/2, by norm_num, by norm_num, by norm_num, by norm_num, ?_, ?_⟩
    · push_cast
      norm_num
    · push_cast
      norm_num

/-- C5: a candidate covering zero pixels is discarded (it produces no score
at all); `triangulate` fails — with `TriangulationFailed`, the only error it
produces — exactly when some round's entire candidate draw is discarded for
zero coverage (coverage is determined by the 64×64 proxy dimensions and the
triangle alone); and every successful round's selection carries a minimal
score among that round's surviving candidates. -/
theorem C5_zero_coverage_failure (blend : Rgba → Rgba → Rgba) (img : Image)
    (stream : ℕ → List Triangle) :
    ((∃ e, triangulate blend img stream = .error e) ↔
      ∃ i, i < NUM_TRIANGLES ∧
        ∀ t ∈ stream i, coveredPixels t DOWNSCALE DOWNSCALE = []) ∧
    (∀ e, triangulate blend img stream = .error e → e = .TriangulationFailed) ∧
    (∀ (target current : Image) (t : Triangle),
      coveredPixels t target.width target.height = [] →
      evalCandidate blend target current t = none) ∧
    (∀ (target current : Image) (cands : List Triangle) (ct : ColorTriangle),
      nextTriangle blend target current cands = some ct →
      ∃ s : ℤ, (s, ct) ∈ cands.filterMap (evalCandidate blend target current) ∧
        ∀ q ∈ cands.filterMap (evalCandidate blend target current), s ≤ q.1) := by
  refine ⟨?_, ?_, ?_, ?_⟩
  · constructor
    · rintro ⟨e, he⟩
      simp only [triangulate] at he
      cases hrun : runRounds blend (downsample img) stream 0 NUM_TRIANGLES
          (initialBuffer img, []) with
      | none =>
          obtain ⟨j, h1, h2, h3⟩ :=
            (runRounds_eq_none_iff NUM_TRIANGLES 0 (initialBuffer img, [])).mp hrun
          exact ⟨j, by omega, h3⟩
      | some st =>
          rw [hrun] at he
          cases he
    · rintro ⟨i, hi, hall⟩
      have hrun : runRounds blend (downsample img) stream 0 NUM_TRIANGLES
          (initialBuffer img, []) = none :=
        (runRounds_eq_none_iff NUM_TRIANGLES 0 (initialBuffer img, [])).mpr
          ⟨i, by omega, by omega, hall⟩
      refine ⟨.TriangulationFailed, ?_⟩
      simp only [triangulate]
      rw [hrun]
  · intro e he
    simp only [triangulate] at he
    cases hrun : runRounds blend (downsample img) stream 0 NUM_TRIANGLES
        (initialBuffer img, []) with
    | none =>
        rw [hrun] at he
        exact (Except.error.inj he).symm
    | some st =>
        rw [hrun] at he
        cases he
  · intro target current t hnil
    exact evalCandidate_eq_none_iff.mpr hnil
  · intro target current cands ct h
    exact nextTriangle_is_min h

/-- C5 witness: a concrete run whose single candidate per round is the
degenerate triangle with all vertices at the origin (zero coverage), applied
to the failure direction of the equivalence: `triangulate` reports an error. -/
theorem C5_zero_coverage_failure_witness :
    triangulate (fun a _ => a) ⟨64, 64, fun _ _ => ⟨255, 255, 255, 255⟩⟩
      (fun _ => [⟨⟨0, 0⟩, ⟨0, 0⟩, ⟨0, 0⟩⟩]) = .error .TriangulationFailed := by
  obtain ⟨e, he⟩ :=
    (C5_zero_coverage_failure (fun a _ => a) ⟨64, 64, fun _ _ => ⟨255, 255, 255, 255⟩⟩
        (fun _ => [⟨⟨0, 0⟩, ⟨0, 0⟩, ⟨0, 0⟩⟩])).1.mpr
      ⟨0, by norm_num [NUM_TRIANGLES], by decide⟩
  have hef :=
    (C5_zero_coverage_failure (fun a _ => a) ⟨64, 64, fun _ _ => ⟨255, 255, 255, 255⟩⟩
        (fun _ => [⟨⟨0, 0⟩, ⟨0, 0⟩, ⟨0, 0⟩⟩])).2.1 e he
  rw [hef] at he
  exact he

/-- C6: for every triangle and canvas size the clamped bounding box satisfies
`0 ≤ x0`, `0 ≤ y0`, `x1 ≤ W`, `y1 ≤ H`, so the half-open rectangle
`[x0,x1) × [y0,y1)` is contained in `[0,W) × [0,H)`; a degenerate box
(`x1 ≤ x0` or `y1 ≤ y0`) yields an empty covered-pixel list, and zero
coverage makes the candidate evaluate to `none` (no coverage), not an error. -/
theorem C6_bounding_subset (t : Triangle) (w h : ℕ) :
    0 ≤ (t.bounding w h).1 ∧
    0 ≤ (t.bounding w h).2.1 ∧
    (t.bounding w h).2.2.1 ≤ (w : ℤ) ∧
    (t.bounding w h).2.2.2 ≤ (h : ℤ) ∧
    (∀ x y : ℤ, (t.bounding w h).1 ≤ x → x < (t.bounding w h).2.2.1 →
      (t.bounding w h).2.1 ≤ y → y < (t.bounding w h).2.2.2 →
      0 ≤ x ∧ x < (w : ℤ) ∧ 0 ≤ y ∧ y < (h : ℤ)) ∧
    ((t.bounding w h).2.2.1 ≤ (t.bounding w h).1 ∨
      (t.bounding w h).2.2.2 ≤ (t.bounding w h).2.1 →
      coveredPixels t w h = []) ∧
    (∀ (blend : Rgba → Rgba → Rgba) (target current : Image),
      target.width = w → target.height = h →
      coveredPixels t w h = [] →
      evalCandidate blend target current t = none) := by
  obtain ⟨h1, h2, h3, h4⟩ := bounding_spec t w h
  refine ⟨h1, h2, h3, h4, ?_, ?_, ?_⟩
  · intro x y hx1 hx2 hy1 hy2
    exact ⟨le_trans h1 hx1, lt_of_lt_of_le hx2 h3, le_trans h2 hy1, lt_of_lt_of_le hy2 h4⟩
  · exact coveredPixels_eq_nil_of_degenerate
  · intro blend target current hw hh hnil
    apply evalCandidate_eq_none_iff.mpr
    rw [hw, hh]
    exact hnil

/-- C6 witness: a triangle entirely left of and above the canvas clamps to an
empty box and covers nothing. -/
theorem C6_bounding_subset_witness :
    coveredPixels ⟨⟨-5, -5⟩, ⟨-3, -9⟩, ⟨-1, -2⟩⟩ 64 64 = [] :=
  (C6_bounding_subset ⟨⟨-5, -5⟩, ⟨-3, -9⟩, ⟨-1, -2⟩⟩ 64 64).2.2.2.2.2.1
    (Or.inl (by decide))

/-- C7: whenever `triangulate` returns `Ok`, the svg's triangle list has
exactly `NUM_TRIANGLES` entries, and each successful round appends exactly
the one triangle selected by `next_triangle` at the end of the list built so
far (insertion order preserved). -/
theorem C7_success_length (blend : Rgba → Rgba → Rgba) (img : Image)
    (stream : ℕ → List Triangle) (svg : Svg)
    (h : triangulate blend img stream = .ok svg) :
    svg.triangles.length = NUM_TRIANGLES ∧
    (∀ (target : Image) (cands : List Triangle)
        (st st' : Image × List ColorTriangle),
      roundStep blend target cands st = some st' →
      ∃ ct, nextTriangle blend target st.1 cands = some ct ∧
        st'.2 = st.2 ++ [ct]) := by
  constructor
  · simp only [triangulate] at h
    cases hrun : runRounds blend (downsample img) stream 0 NUM_TRIANGLES
        (initialBuffer img, []) with
    | none =>
        rw [hrun] at h
        cases h
    | some st =>
        rw [hrun] at h
        have hlen := runRounds_length NUM_TRIANGLES 0 (initialBuffer img, []) st hrun
        obtain rfl := (Except.ok.inj h).symm
        simp only [Svg.scale, List.length_map]
        simpa using hlen
  · intro target cands st st' hstep
    obtain ⟨ct, hct, hst'⟩ := roundStep_eq_some_iff.mp hstep
    exact ⟨ct, hct, by rw [hst']⟩

/-- C7 witness: a concrete 8×8 run with one viable candidate per round
terminates with exactly `NUM_TRIANGLES` = 10 triangles. -/
theorem C7_success_length_witness :
    (⟨⟨255, 255, 255, 255⟩,
      List.replicate 10 ⟨⟨⟨5, 5⟩, ⟨5, 5⟩, ⟨5, 5⟩⟩, ⟨255, 255, 255, 230⟩⟩,
      8, 8⟩ : Svg).triangles.length = NUM_TRIANGLES :=
  (C7_success_length (fun a _ => a) ⟨8, 8, fun _ _ => ⟨255, 255, 255, 255⟩⟩
    (fun _ => [⟨⟨40, 40⟩, ⟨42, 40⟩, ⟨40, 42⟩⟩])
    ⟨⟨255, 255, 255, 255⟩,
      List.replicate 10 ⟨⟨⟨5, 5⟩, ⟨5, 5⟩, ⟨5, 5⟩⟩, ⟨255, 255, 255, 230⟩⟩,
      8, 8⟩ rfl).1

/-- C8: `rasterize_triangle` can modify only pixels inside the clamped
bounding box that pass the containment test: any other pixel of the canvas
keeps exactly its previous value, and the canvas dimensions are unchanged. -/
theorem C8_rasterize_frame (blend : Rgba → Rgba → Rgba) (img : Image)
    (ct : ColorTriangle) (x y : ℕ)
    (h : ¬(((ct.triangle.bounding img.width img.height).1 ≤ (x : ℤ) ∧
        (x : ℤ) < (ct.triangle.bounding img.width img.height).2.2.1 ∧
        (ct.triangle.bounding img.width img.height).2.1 ≤ (y : ℤ) ∧
        (y : ℤ) < (ct.triangle.bounding img.width img.height).2.2.2) ∧
      ct.triangle.contains ⟨(x : ℤ), (y : ℤ)⟩ = true)) :
    (rasterizeTriangle blend img ct).pix x y = img.pix x y ∧
    (rasterizeTriangle blend img ct).width = img.width ∧
    (rasterizeTriangle blend img ct).height = img.height := by
  refine ⟨?_, rasterizeTriangle_width blend img ct, rasterizeTriangle_height blend img ct⟩
  unfold rasterizeTriangle
  apply foldl_rasterStep_pix
  intro p hp hcontra
  obtain ⟨hpx, hpy, hpc⟩ := hcontra
  rw [mem_rectPixels] at hp
  have hb := bounding_spec ct.triangle img.width img.height
  have hx : (x : ℤ) = p.1 := by omega
  have hy : (y : ℤ) = p.2 := by omega
  apply h
  refine ⟨⟨by omega, by omega, by omega, by omega⟩, ?_⟩
  rw [hx, hy]
  exact hpc

/-- C8 witness: the pixel (3,3), outside the bounding box of the triangle
(0,0),(2,0),(0,2) on a 4×4 canvas, is untouched by rasterization. -/
theorem C8_rasterize_frame_witness :
    (rasterizeTriangle (fun a _ => a) ⟨4, 4, fun _ _ => ⟨1, 2, 3, 4⟩⟩
      ⟨⟨⟨0, 0⟩, ⟨2, 0⟩, ⟨0, 2⟩⟩, ⟨9, 9, 9, 9⟩⟩).pix 3 3 =
      (⟨4, 4, fun _ _ => ⟨1, 2, 3, 4⟩⟩ : Image).pix 3 3 :=
  (C8_rasterize_frame (fun a _ => a) ⟨4, 4, fun _ _ => ⟨1, 2, 3, 4⟩⟩
    ⟨⟨⟨0, 0⟩, ⟨2, 0⟩, ⟨0, 2⟩⟩, ⟨9, 9, 9, 9⟩⟩ 3 3 (by decide)).1

/-- C9: the averaging division of candidate evaluation is guarded by the
zero-coverage discard — a candidate with an empty footprint evaluates to
`none` before any division, and otherwise the divisor is at least 1; each
averaged channel (sum of `u8` values divided by the pixel count) is at most
255, so its `as u8` conversion (`toU8`) is the identity and never truncates. -/
theorem C9_avg_guard (target : Image) (t : Triangle) :
    (∀ (blend : Rgba → Rgba → Rgba) (current : Image),
      coveredPixels t target.width target.height = [] →
      evalCandidate blend target current t = none) ∧
    (coveredPixels t target.width target.height ≠ [] →
      1 ≤ (coveredPixels t target.width target.height).length ∧
      ∀ ch : Rgba → Fin 256,
        footprintSum target (coveredPixels t target.width target.height) ch /
          (coveredPixels t target.width target.height).length ≤ 255 ∧
        ((toU8 (footprintSum target (coveredPixels t target.width target.height) ch /
          (coveredPixels t target.width target.height).length)) : ℕ) =
          footprintSum target (coveredPixels t target.width target.height) ch /
            (coveredPixels t target.width target.height).length) := by
  constructor
  · intro blend current hnil
    exact evalCandidate_eq_none_iff.mpr hnil
  · intro hne
    have hpos : 0 < (coveredPixels t target.width target.height).length :=
      List.length_pos.mpr hne
    refine ⟨hpos, ?_⟩
    intro ch
    have hbound : footprintSum target (coveredPixels t target.width target.height) ch ≤
        255 * (coveredPixels t target.width target.height).length := by
      unfold footprintSum
      have := List.sum_le_card_nsmul
        ((coveredPixels t target.width target.height).map
          (fun p => ((ch (target.pix p.1 p.2)) : ℕ))) 255 ?_
      · simpa [List.length_map, smul_eq_mul, mul_comm] using this
      · intro x hx
        obtain ⟨p, -, rfl⟩ := List.mem_map.mp hx
        exact Fin.is_le _
    have hdiv : footprintSum target (coveredPixels t target.width target.height) ch /
        (coveredPixels t target.width target.height).length ≤ 255 :=
      Nat.div_le_of_le_mul (by omega)
    refine ⟨hdiv, ?_⟩
    unfold toU8
    exact Nat.mod_eq_of_lt (by omega)

/-- C9 witness: a concrete candidate with four covered pixels on a constant
64×64 target. -/
theorem C9_avg_guard_witness :
    1 ≤ (coveredPixels ⟨⟨40, 40⟩, ⟨42, 40⟩, ⟨40, 42⟩⟩
      (⟨64, 64, fun _ _ => ⟨10, 20, 30, 255⟩⟩ : Image).width
      (⟨64, 64, fun _ _ => ⟨10, 20, 30, 255⟩⟩ : Image).height).length :=
  ((C9_avg_guard ⟨64, 64, fun _ _ => ⟨10, 20, 30, 255⟩⟩
    ⟨⟨40, 40⟩, ⟨42, 40⟩, ⟨40, 42⟩⟩).2 (by decide)).1

/-- C10: `Svg::scale` only rewrites the vertex coordinates of the stored
triangles (x times sx, y times sy, truncated toward zero); it preserves the
number and order of the triangles, every triangle's color (alpha included),
and the background, width and height of the svg. -/
theorem C10_scale_frame (svg : Svg) (sx sy : ℚ) :
    (svg.scale sx sy).background = svg.background ∧
    (svg.scale sx sy).width = svg.width ∧
    (svg.scale sx sy).height = svg.height ∧
    (svg.scale sx sy).triangles.length = svg.triangles.length ∧
    (svg.scale sx sy).triangles = svg.triangles.map (fun ct =>
      ⟨⟨⟨scaleCoord sx ct.triangle.a.x, scaleCoord sy ct.triangle.a.y⟩,
        ⟨scaleCoord sx ct.triangle.b.x, scaleCoord sy ct.triangle.b.y⟩,
        ⟨scaleCoord sx ct.triangle.c.x, scaleCoord sy ct.triangle.c.y⟩⟩,
       ct.color⟩) ∧
    (∀ i : ℕ, ((svg.scale sx sy).triangles[i]?).map ColorTriangle.color =
      (svg.triangles[i]?).map ColorTriangle.color) := by
  refine ⟨rfl, rfl, rfl, by simp [Svg.scale], rfl, ?_⟩
  intro i
  simp only [Svg.scale, List.getElem?_map, Option.map_map]
  cases svg.triangles[i]? <;> rfl

end Nail
